import Mathlib

/-!
Verification development for the pg_backup repository (Go).

Strings are modelled as lists of characters (`String` is used for record
fields, with `.data` exposing the character list).  Machine integers that
matter here (timestamps, retention counts, day numbers) are modelled as
`Nat`/`Int`.  Stateful pipeline code is modelled by explicit environment
records describing the outcome of each external call, and by trace-producing
step functions.

The file is organised as: all definitions first, then all lemmas and
theorems.
-/

namespace PgBackup

/-! ## Definitions -/

/-! ### `contains` / `containsMiddle` from `main.go`

`contains(s, substr)` returns whether `substr` occurs in `s`, implemented by
hand as: suffix match, or else prefix match, or else an occurrence strictly
inside the string (`containsMiddle`, scanning offsets
`1 ≤ i < len(s)-len(substr)`).
-/

def goContainsMiddle (s sub : List Char) : Bool :=
  (List.range (s.length - sub.length)).any fun i =>
    decide (1 ≤ i) && decide ((s.drop i).take sub.length = sub)

def goContains (s sub : List Char) : Bool :=
  (decide (sub.length ≤ s.length) && decide (s.drop (s.length - sub.length) = sub))
    || (decide (sub.length ≤ s.length) && decide (s.take sub.length = sub))
    || (decide (sub.length < s.length) && goContainsMiddle s sub)

/-- Standard contiguous-substring containment: `sub` occurs in `s` iff `s`
splits as `u ++ sub ++ v`.  This is the specification-side notion matching
Go's `strings.Contains`. -/
def isSubstring (sub s : List Char) : Prop := ∃ u v, s = u ++ sub ++ v

/-- `contains` lifted to `String`, used both for the exit-code classifier of
`main.go` and as the (provably equivalent, see `goContains_iff`) model of
`strings.Contains`. -/
def strContains (s sub : String) : Bool := goContains s.data sub.data

/-! ### Retention manager — `CleanupOldBackups` in `internal/storage/s3.go`

The listing is filtered to keys whose base name starts with `backup-` and
which end in `.dump`, then sorted "newest first" by the nested exchange loop
of the source, and every object from index `retentionCount` on is deleted.
Timestamps (`LastModified`) are modelled as `Nat`; the source's nil-pointer
guards on AWS SDK fields are dropped because every field is total here.
-/

def goStartsWith (s p : List Char) : Bool :=
  decide (p.length ≤ s.length) && decide (s.take p.length = p)

def goEndsWith (s suf : List Char) : Bool :=
  decide (suf.length ≤ s.length) && decide (s.drop (s.length - suf.length) = suf)

/-- Go's `filepath.Base`: strip trailing slashes, then keep everything after
the last slash; empty input gives `"."`, an all-slash input gives `"/"`. -/
def goBase (p : List Char) : List Char :=
  if p = [] then ['.']
  else
    let q := (p.reverse.dropWhile (· = '/')).reverse
    let r := (q.reverse.takeWhile (· ≠ '/')).reverse
    if r = [] then ['/'] else r

structure BackupObj where
  key : String
  lastModified : Nat
deriving DecidableEq, Repr

/-- The backup-pattern filter of `CleanupOldBackups`:
`strings.HasPrefix(filepath.Base(*obj.Key), "backup-") && strings.HasSuffix(*obj.Key, ".dump")`. -/
def matchesCleanup (o : BackupObj) : Bool :=
  goStartsWith (goBase o.key.data) "backup-".data && goEndsWith o.key.data ".dump".data

/-- One fixed-`i` pass of the source's nested sorting loop: the carried value
is the current `allBackups[i]`; whenever it is older than the element under
scrutiny the two are swapped. -/
def sortPass (x : BackupObj) : List BackupObj → BackupObj × List BackupObj
  | [] => (x, [])
  | y :: ys =>
    if x.lastModified < y.lastModified then
      let p := sortPass y ys
      (p.1, x :: p.2)
    else
      let p := sortPass x ys
      (p.1, y :: p.2)

/-- Outer loop of the source's sort, with the loop counter made explicit
(the outer `i` loop runs once per element, so the counter starts at the
listing's length; `sortPass` preserves length, so the counter is always
sufficient). -/
def exchangeSortAux : Nat → List BackupObj → List BackupObj
  | 0, _ => []
  | _ + 1, [] => []
  | n + 1, x :: xs =>
    (sortPass x xs).1 :: exchangeSortAux n (sortPass x xs).2

/-- The full "sort by modification time (newest first)" double loop of
`CleanupOldBackups`. -/
def exchangeSort (l : List BackupObj) : List BackupObj :=
  exchangeSortAux l.length l

/-- Objects `CleanupOldBackups` deletes: everything from index `retention`
onward in the filtered, newest-first-sorted listing (nothing when the count
is within the retention bound). -/
def cleanupDeleted (objs : List BackupObj) (retention : Nat) : List BackupObj :=
  let sorted := exchangeSort (objs.filter matchesCleanup)
  if sorted.length ≤ retention then [] else sorted.drop retention

/-- Objects `CleanupOldBackups` keeps. -/
def cleanupKept (objs : List BackupObj) (retention : Nat) : List BackupObj :=
  (exchangeSort (objs.filter matchesCleanup)).take retention

/-- Modelled from the spec: stable descending insertion, placing the inserted
object before every strictly-older object and before objects of equal
timestamp inserted from further right, so that ties keep listing order.
Used only to compare the spec's stated tie-break with the source's actual
sort. -/
def insertDesc (a : BackupObj) : List BackupObj → List BackupObj
  | [] => [a]
  | b :: bs => if b.lastModified ≤ a.lastModified then a :: b :: bs else b :: insertDesc a bs

/-- Modelled from the spec: stable descending sort by last-modified. -/
def stableSortDesc : List BackupObj → List BackupObj
  | [] => []
  | x :: xs => insertDesc x (stableSortDesc xs)

/-- Modelled from the spec: the set the retention manager should delete under
the spec's stable tie-break reading. -/
def specStableDeleted (objs : List BackupObj) (retention : Nat) : List BackupObj :=
  (stableSortDesc (objs.filter matchesCleanup)).drop retention

/-! ### Latest-backup selection — `GetLatestBackup` in `internal/storage/s3.go`
and the selection step of `RestoreManager.Run` in `internal/restore/restore.go`

`GetLatestBackup` scans the listing keeping the first object whose
last-modified time is strictly greater than every time seen so far, starting
from the zero time , and errors with "no backups found in S3" when nothing
was kept.  `Run` calls it only when no explicit backup key was given and
aborts on its error.
-/

/-- The backup-pattern filter of `GetLatestBackup`:
`strings.Contains(*obj.Key, "backup_") && strings.HasSuffix(*obj.Key, ".dump")`. -/
def matchesLatest (o : BackupObj) : Bool :=
  strContains o.key "backup_" && goEndsWith o.key.data ".dump".data

/-- The scanning loop of `GetLatestBackup`: state is
`(latestBackup, latestTime)`, initially `(nil, zero time)`. -/
def latestLoop : List BackupObj → Option BackupObj × Nat → Option BackupObj × Nat
  | [], st => st
  | o :: rest, (lb, lt) =>
    if matchesLatest o = true ∧ lt < o.lastModified then
      latestLoop rest (some o, o.lastModified)
    else
      latestLoop rest (lb, lt)

def getLatestBackup (objs : List BackupObj) : Except String String :=
  match (latestLoop objs (none, 0)).1 with
  | none => Except.error "no backups found in S3"
  | some o => Except.ok o.key

/-- The selection step of `RestoreManager.Run`: with no explicit backup key,
the latest backup is looked up and its failure aborts the run (wrapped as
"failed to get latest backup"). -/
def restoreSelectKey (backupKey : String) (objs : List BackupObj) : Except String String :=
  if backupKey = "" then
    match getLatestBackup objs with
    | Except.error e => Except.error ("failed to get latest backup: " ++ e)
    | Except.ok k => Except.ok k
  else
    Except.ok backupKey

/-- Specification-side helper: the greatest last-modified time among objects
matching the `GetLatestBackup` pattern (0 for an empty or no-match listing). -/
def maxMatchTime (l : List BackupObj) : Nat :=
  ((l.filter matchesLatest).map (·.lastModified)).foldr max 0

/-! ### Backup pipeline — `BackupManager.Run` in `backup.go` and the
exit-code switch of `main.go`

`Run` executes connect → remote dump → transfer → upload in order, returning
on the first error (after a best-effort failure notification); the cleanup
stage (`performCleanup`: local temp-file removal plus retention) runs only
after a successful upload and its error is demoted to a warning.  A deferred
`cleanup()` closes the SSH session on every path.  On a transfer failure the
partial local file is removed inside the transfer stage itself.  Each stage
failure wraps the underlying error with a fixed "(exit code N)" marker that
`main` scans for with `contains`.
-/

inductive BStage
  | connect
  | dump
  | transfer
  | upload
  | removeLocal
  | retention
  | sshClose
deriving DecidableEq, Repr

/-- Outcome of the remote-dump stage (`createRemoteBackup`): the dump command
may fail (diagnostics are read back and appended), the size verification may
fail, or the file may be missing/empty. -/
inductive DumpOutcome
  | ok
  | cmdFailed (errText fileHead cmdOutput : String)
  | statFailed (errText : String)
  | emptyFile
deriving DecidableEq, Repr

/-- One backup run's external-world outcomes: `none`/`ok` means the stage's
external calls succeed, `some e` carries the underlying error text. -/
structure BackupEnv where
  connectErr : Option String
  dump : DumpOutcome
  transferErr : Option String
  uploadErr : Option String
  retentionErr : Option String
deriving DecidableEq, Repr

def connectMsg (e : String) : String :=
  "SSH connection failed (exit code 2): " ++ e

def dumpCmdMsg (e fileHead cmdOutput : String) : String :=
  let m := "backup creation failed (exit code 3): " ++ e
  let m := if fileHead ≠ "" then m ++ "\npg_dump output: " ++ fileHead else m
  if cmdOutput ≠ "" then m ++ "\nCommand output: " ++ cmdOutput else m

def dumpStatMsg (e : String) : String :=
  "failed to verify backup file (exit code 3): " ++ e

def dumpEmptyMsg : String := "backup file is empty (exit code 3)"

def transferMsg (e : String) : String :=
  "transfer failed (exit code 4): " ++ e

def uploadMsg (e : String) : String :=
  "S3 upload failed (exit code 5): " ++ e

def dumpMsg : DumpOutcome → Option String
  | DumpOutcome.ok => none
  | DumpOutcome.cmdFailed e h o => some (dumpCmdMsg e h o)
  | DumpOutcome.statFailed e => some (dumpStatMsg e)
  | DumpOutcome.emptyFile => some dumpEmptyMsg

/-- `BackupManager.Run` (non-dry-run): the executed-events trace together
with the returned error, for a given environment. -/
def backupRun (env : BackupEnv) : List BStage × Option String :=
  match env.connectErr with
  | some e => ([BStage.connect, BStage.sshClose], some (connectMsg e))
  | none =>
    match dumpMsg env.dump with
    | some m => ([BStage.connect, BStage.dump, BStage.sshClose], some m)
    | none =>
      match env.transferErr with
      | some e =>
        ([BStage.connect, BStage.dump, BStage.transfer, BStage.removeLocal,
          BStage.sshClose], some (transferMsg e))
      | none =>
        match env.uploadErr with
        | some e =>
          ([BStage.connect, BStage.dump, BStage.transfer, BStage.upload,
            BStage.sshClose], some (uploadMsg e))
        | none =>
          ([BStage.connect, BStage.dump, BStage.transfer, BStage.upload,
            BStage.removeLocal, BStage.retention, BStage.sshClose], none)

/-- The exit-code switch in `main`: scan the error text for the stage
markers in order. -/
def classifyExit (msg : String) : Nat :=
  if strContains msg "exit code 2" then 2
  else if strContains msg "exit code 3" then 3
  else if strContains msg "exit code 4" then 4
  else if strContains msg "exit code 5" then 5
  else if strContains msg "cleanup" then 6
  else 1

/-- Process exit code of a completed CLI backup invocation. -/
def backupExitCode (env : BackupEnv) : Nat :=
  match (backupRun env).2 with
  | none => 0
  | some m => classifyExit m

/-! ### Restore version-mismatch recovery — `performRestore` in
`internal/restore/restore.go`

After the first `pg_restore` invocation fails with output containing
"unsupported version", the archive's format version is extracted from the
error text.  For format 1.16 the archive's PGDMP magic is checked first
(failure is an invalid-format error), then — only when running locally
(`sshClient == nil`) with auto-install enabled — PostgreSQL 17 client tools
are installed and, if `pg_restore --version` now reports 17, the restore is
retried exactly once.  For any other extracted version the same local+auto
guard protects a single specific-version install and one retry.  Every
failing path below surfaces a version-mismatch error except the failed magic
check.  Package-manager detection, the direct-then-repository install
fallback, and version probing are collapsed into single environment bits
(`installOk`, `newVersionIs17`), counting one install attempt.
-/

inductive RErr
  | invalidFormat
  | versionMismatch
  | restoreFailed
deriving DecidableEq, Repr

structure RestoreEnv where
  sshMode : Bool
  autoInstall : Bool
  firstRunOk : Bool
  unsupported : Bool
  extractedVersion : Option String
  warningOnly : Bool
  magicPgdmp : Bool
  installOk : Bool
  newVersionIs17 : Bool
  retryOk : Bool
deriving DecidableEq, Repr

structure RestoreResult where
  installs : Nat
  restoreCalls : Nat
  result : Except RErr Unit
deriving Repr

/-- The `pg_restore` execution and recovery tail of `performRestore`:
counts install attempts and `pg_restore` invocations of the restore command
and yields the outcome. -/
def performRestoreExec (env : RestoreEnv) : RestoreResult :=
  if env.firstRunOk then ⟨0, 1, Except.ok ()⟩
  else if env.unsupported then
    let ver := match env.extractedVersion with
      | some v => v
      | none => "unknown"
    if ver = "1.16" then
      if ¬ env.magicPgdmp then ⟨0, 1, Except.error RErr.invalidFormat⟩
      else if ¬ env.sshMode ∧ env.autoInstall then
        if env.installOk then
          if env.newVersionIs17 then
            if env.retryOk then ⟨1, 2, Except.ok ()⟩
            else ⟨1, 2, Except.error RErr.versionMismatch⟩
          else ⟨1, 1, Except.error RErr.versionMismatch⟩
        else ⟨1, 1, Except.error RErr.versionMismatch⟩
      else ⟨0, 1, Except.error RErr.versionMismatch⟩
    else
      if ¬ env.sshMode ∧ env.autoInstall then
        if env.installOk then
          if env.retryOk then ⟨1, 2, Except.ok ()⟩
          else ⟨1, 2, Except.error RErr.versionMismatch⟩
        else ⟨1, 1, Except.error RErr.versionMismatch⟩
      else ⟨0, 1, Except.error RErr.versionMismatch⟩
  else if env.warningOnly then ⟨0, 1, Except.ok ()⟩
  else ⟨0, 1, Except.error RErr.restoreFailed⟩

/-! ### Scheduler job-definition translation —
`createJobDefinition` / `parseWeeklySchedule` / `parseMonthlySchedule` /
`parseWeekday` in `internal/scheduler`

`fmt.Sscanf` with `"%s %s"` and `"%d %s"` is modelled by whitespace-skipping
token and integer scanners; `time.Parse("15:04", ...)` by an HH:MM
validator (1–2 digit hour `0..23`, exactly 2-digit minute `0..59`, nothing
else); `time.ParseDuration` by the documented stdlib grammar
(sign, then number–unit components with units ns/us/µs/μs/ms/s/m/h; the
value of fractional components is irrelevant to these claims, so their
digits are accepted but only integer parts contribute to the returned
value). -/

inductive Weekday
  | sunday
  | monday
  | tuesday
  | wednesday
  | thursday
  | friday
  | saturday
deriving DecidableEq, Repr

/-- The `switch` of `parseWeekday`: exactly four accepted spellings per
weekday. -/
def parseWeekday (s : String) : Except String Weekday :=
  if s = "Sunday" ∨ s = "sunday" ∨ s = "Sun" ∨ s = "sun" then Except.ok Weekday.sunday
  else if s = "Monday" ∨ s = "monday" ∨ s = "Mon" ∨ s = "mon" then Except.ok Weekday.monday
  else if s = "Tuesday" ∨ s = "tuesday" ∨ s = "Tue" ∨ s = "tue" then Except.ok Weekday.tuesday
  else if s = "Wednesday" ∨ s = "wednesday" ∨ s = "Wed" ∨ s = "wed" then Except.ok Weekday.wednesday
  else if s = "Thursday" ∨ s = "thursday" ∨ s = "Thu" ∨ s = "thu" then Except.ok Weekday.thursday
  else if s = "Friday" ∨ s = "friday" ∨ s = "Fri" ∨ s = "fri" then Except.ok Weekday.friday
  else if s = "Saturday" ∨ s = "saturday" ∨ s = "Sat" ∨ s = "sat" then Except.ok Weekday.saturday
  else Except.error ("invalid weekday: " ++ s)

/-- The spellings `parseWeekday` accepts for each weekday (specification
side, for the amended statement). -/
def weekdaySpellings : Weekday → List String
  | Weekday.sunday => ["Sunday", "sunday", "Sun", "sun"]
  | Weekday.monday => ["Monday", "monday", "Mon", "mon"]
  | Weekday.tuesday => ["Tuesday", "tuesday", "Tue", "tue"]
  | Weekday.wednesday => ["Wednesday", "wednesday", "Wed", "wed"]
  | Weekday.thursday => ["Thursday", "thursday", "Thu", "thu"]
  | Weekday.friday => ["Friday", "friday", "Fri", "fri"]
  | Weekday.saturday => ["Saturday", "saturday", "Sat", "sat"]

def isGoSpace (c : Char) : Bool := c = ' ' || c = '\t' || c = '\n' || c = '\r'

/-- One `%s` item of `fmt.Sscanf`: skip spaces, read a non-empty run of
non-space characters. -/
def scanToken (l : List Char) : Option (List Char × List Char) :=
  let l1 := l.dropWhile isGoSpace
  let tok := l1.takeWhile (fun c => !isGoSpace c)
  if tok = [] then none else some (tok, l1.drop tok.length)

def digitsToNat (ds : List Char) : Nat :=
  ds.foldl (fun a c => 10 * a + (c.toNat - '0'.toNat)) 0

/-- One `%d` item of `fmt.Sscanf`: skip spaces, optional sign, non-empty
digit run. -/
def scanInt (l : List Char) : Option (Int × List Char) :=
  let l1 := l.dropWhile isGoSpace
  let sl : Int × List Char :=
    match l1 with
    | '-' :: rest => (-1, rest)
    | '+' :: rest => (1, rest)
    | _ => (1, l1)
  let ds := sl.2.takeWhile (·.isDigit)
  if ds = [] then none
  else some (sl.1 * (digitsToNat ds : Int), sl.2.drop ds.length)

/-- `parseWeeklySchedule`: `Sscanf(expr, "%s %s")` then weekday lookup. -/
def parseWeeklySchedule (expr : String) : Except String (Weekday × String) :=
  match scanToken expr.data with
  | none => Except.error "expected format Weekday HH:MM"
  | some (t1, rest) =>
    match scanToken rest with
    | none => Except.error "expected format Weekday HH:MM"
    | some (t2, _) =>
      match parseWeekday (String.mk t1) with
      | Except.error e => Except.error e
      | Except.ok w => Except.ok (w, String.mk t2)

/-- `parseMonthlySchedule`: `Sscanf(expr, "%d %s")`, then the 1–31 day
range check. -/
def parseMonthlySchedule (expr : String) : Except String (Int × String) :=
  match scanInt expr.data with
  | none => Except.error "expected format DD HH:MM"
  | some (day, rest) =>
    match scanToken rest with
    | none => Except.error "expected format DD HH:MM"
    | some (t2, _) =>
      if day < 1 ∨ day > 31 then Except.error "day must be between 1 and 31"
      else Except.ok (day, String.mk t2)

/-- `time.Parse("15:04", s)`: a 1–2 digit hour `0..23`, a colon, exactly a
2-digit minute `0..59`, and nothing else. -/
def parseHHMM (s : String) : Option (Nat × Nat) :=
  match s.data.splitOn ':' with
  | [h, m] =>
    if h ≠ [] ∧ h.length ≤ 2 ∧ h.all (·.isDigit)
        ∧ m.length = 2 ∧ m.all (·.isDigit) then
      let hv := digitsToNat h
      let mv := digitsToNat m
      if hv ≤ 23 ∧ mv ≤ 59 then some (hv, mv) else none
    else none
  | _ => none

def unitMul (u : List Char) : Option Nat :=
  if u = "ns".data then some 1
  else if u = "us".data then some 1000
  else if u = "µs".data then some 1000
  else if u = "μs".data then some 1000
  else if u = "ms".data then some 1000000
  else if u = "s".data then some 1000000000
  else if u = "m".data then some 60000000000
  else if u = "h".data then some 3600000000000
  else none

/-- The number–unit component loop of `time.ParseDuration` (each iteration
consumes at least one character, so the input length bounds the fuel). -/
def parseDurationItems : Nat → List Char → Nat → Option Nat
  | 0, _, _ => none
  | _ + 1, [], acc => some acc
  | fuel + 1, l, acc =>
    let ip := l.span (·.isDigit)
    let fp : List Char × List Char :=
      match ip.2 with
      | '.' :: rest => rest.span (·.isDigit)
      | _ => ([], ip.2)
    if ip.1 = [] ∧ fp.1 = [] then none
    else
      let up := fp.2.span (fun c => !(c.isDigit || c = '.'))
      match unitMul up.1 with
      | none => none
      | some mul => parseDurationItems fuel up.2 (acc + digitsToNat ip.1 * mul)

/-- `time.ParseDuration`: optional sign, the literal `"0"`, or a non-empty
sequence of number–unit components. -/
def goParseDuration (s : String) : Option Int :=
  let l := s.data
  let sl : Bool × List Char :=
    match l with
    | '-' :: rest => (true, rest)
    | '+' :: rest => (false, rest)
    | _ => (false, l)
  if sl.2 = "0".data then some 0
  else if sl.2 = [] then none
  else
    match parseDurationItems (sl.2.length + 1) sl.2 0 with
    | none => none
    | some v => some (if sl.1 then -(v : Int) else (v : Int))

/-- A concrete recurrence rule as handed to the scheduling library. -/
inductive JobDef
  | cron (expr : String)
  | interval (d : Int)
  | daily (hour minute : Nat)
  | weekly (day : Weekday) (hour minute : Nat)
  | monthly (day : Int) (hour minute : Nat)
deriving DecidableEq, Repr

/-- `createJobDefinition` (equivalently the `switch` of `scheduleBackupJob`):
translate a schedule type and expression into a recurrence rule or fail at
job-creation time. -/
def createJobDefinition (stype expr : String) : Except String JobDef :=
  if stype = "cron" then Except.ok (JobDef.cron expr)
  else if stype = "interval" then
    match goParseDuration expr with
    | none => Except.error "invalid interval duration"
    | some d => Except.ok (JobDef.interval d)
  else if stype = "daily" then
    match parseHHMM expr with
    | none => Except.error "invalid daily time format (expected HH:MM)"
    | some hm => Except.ok (JobDef.daily hm.1 hm.2)
  else if stype = "weekly" then
    match parseWeeklySchedule expr with
    | Except.error e => Except.error e
    | Except.ok wt =>
      match parseHHMM wt.2 with
      | none => Except.error "invalid time format in weekly schedule"
      | some hm => Except.ok (JobDef.weekly wt.1 hm.1 hm.2)
  else if stype = "monthly" then
    match parseMonthlySchedule expr with
    | Except.error e => Except.error e
    | Except.ok dt =>
      match parseHHMM dt.2 with
      | none => Except.error "invalid time format in monthly schedule"
      | some hm => Except.ok (JobDef.monthly dt.1 hm.1 hm.2)
  else Except.error ("unsupported schedule type: " ++ stype)

/-! ### Singleton job execution

Modelled from the spec: the singleton (non-overlapping) execution guarantee
is implemented inside the external gocron library; the repository source
only requests it via `gocron.WithSingletonMode(gocron.LimitModeReschedule)`
in `scheduleBackupJob`/`scheduleJob`, so the guarantee itself is modelled
from the spec's words: a trigger firing while the job's previous run is
still executing is rescheduled to the following occurrence — never queued,
never run concurrently.  State of one job: identifiers of in-flight runs
and the index of the next scheduled occurrence. -/

structure JobState where
  inFlight : List Nat
  nextOcc : Nat
  nextRunId : Nat
deriving DecidableEq, Repr

inductive JobEvent
  | triggerFire
  | runComplete (rid : Nat)
deriving DecidableEq, Repr

/-- Modelled from the spec: a firing trigger starts a run only when none is
in flight, otherwise it only advances the schedule to the following
occurrence; a completing run leaves the schedule untouched. -/
def jobStep (st : JobState) (e : JobEvent) : JobState :=
  match e with
  | JobEvent.triggerFire =>
    if st.inFlight = [] then
      { inFlight := [st.nextRunId], nextOcc := st.nextOcc + 1,
        nextRunId := st.nextRunId + 1 }
    else
      { st with nextOcc := st.nextOcc + 1 }
  | JobEvent.runComplete rid => { st with inFlight := st.inFlight.erase rid }

def jobInit : JobState := ⟨[], 0, 0⟩

/-- A job's state after any finite event sequence from the initial state. -/
def jobRun (events : List JobEvent) : JobState := events.foldl jobStep jobInit

/-! ## Lemmas and theorems -/

lemma slice_isSubstring (s sub : List Char) (i : Nat)
    (h : (s.drop i).take sub.length = sub) : isSubstring sub s := by
  refine ⟨s.take i, (s.drop i).drop sub.length, ?_⟩
  have h2 : s.drop i = sub ++ (s.drop i).drop sub.length := by
    conv_lhs => rw [← List.take_append_drop sub.length (s.drop i)]
    rw [h]
  calc s = s.take i ++ s.drop i := (List.take_append_drop i s).symm
    _ = s.take i ++ (sub ++ (s.drop i).drop sub.length) := by rw [← h2]
    _ = s.take i ++ sub ++ (s.drop i).drop sub.length := by rw [List.append_assoc]

lemma isSubstring_slice (s sub : List Char) (h : isSubstring sub s) :
    ∃ i, i + sub.length ≤ s.length ∧ (s.drop i).take sub.length = sub := by
  obtain ⟨u, v, rfl⟩ := h
  refine ⟨u.length, ?_, ?_⟩
  · simp [List.length_append]
  · rw [List.append_assoc, List.drop_left, List.take_left]

/-- The hand-rolled `contains` agrees exactly with substring containment. -/
lemma goContains_iff (s sub : List Char) : goContains s sub = true ↔ isSubstring sub s := by
  constructor
  · intro h
    simp only [goContains, goContainsMiddle, Bool.or_eq_true, Bool.and_eq_true,
      decide_eq_true_eq, List.any_eq_true, List.mem_range] at h
    rcases h with (⟨hle, hsuf⟩ | ⟨hle, hpre⟩) | ⟨_, i, _, _, hsl⟩
    · refine slice_isSubstring s sub (s.length - sub.length) ?_
      rw [hsuf, List.take_length]
    · refine slice_isSubstring s sub 0 ?_
      rw [List.drop_zero, hpre]
    · exact slice_isSubstring s sub i hsl
  · intro h
    obtain ⟨i, hle, hsl⟩ := isSubstring_slice s sub h
    simp only [goContains, goContainsMiddle, Bool.or_eq_true, Bool.and_eq_true,
      decide_eq_true_eq, List.any_eq_true, List.mem_range]
    by_cases hi0 : i = 0
    · subst hi0
      rw [List.drop_zero] at hsl
      exact Or.inl (Or.inr ⟨by omega, hsl⟩)
    · by_cases hiend : i + sub.length = s.length
      · refine Or.inl (Or.inl ⟨by omega, ?_⟩)
        have hidx : s.length - sub.length = i := by omega
        rw [hidx]
        have hlen : (s.drop i).length = sub.length := by
          rw [List.length_drop]; omega
        calc s.drop i = (s.drop i).take sub.length := by
              rw [← hlen, List.take_length]
          _ = sub := hsl
      · refine Or.inr ⟨by omega, i, by omega, by omega, hsl⟩

lemma sortPass_snd_length (x : BackupObj) (l : List BackupObj) :
    (sortPass x l).2.length = l.length := by
  induction l generalizing x with
  | nil => rfl
  | cons y ys ih =>
    simp only [sortPass]
    split <;> simp [ih]

lemma sortPass_perm (x : BackupObj) (l : List BackupObj) :
    List.Perm ((sortPass x l).1 :: (sortPass x l).2) (x :: l) := by
  induction l generalizing x with
  | nil => rfl
  | cons y ys ih =>
    simp only [sortPass]
    split
    · exact (List.Perm.swap x (sortPass y ys).1 (sortPass y ys).2).trans
        ((ih y).cons x)
    · exact (List.Perm.swap y (sortPass x ys).1 (sortPass x ys).2).trans
        (((ih x).cons y).trans (List.Perm.swap x y ys))

lemma sortPass_max (x : BackupObj) (l : List BackupObj) :
    x.lastModified ≤ (sortPass x l).1.lastModified ∧
      ∀ z ∈ (sortPass x l).2, z.lastModified ≤ (sortPass x l).1.lastModified := by
  induction l generalizing x with
  | nil => exact ⟨le_rfl, by simp [sortPass]⟩
  | cons y ys ih =>
    simp only [sortPass]
    split
    · rename_i hlt
      obtain ⟨h1, h2⟩ := ih y
      refine ⟨le_of_lt (lt_of_lt_of_le hlt h1), ?_⟩
      intro z hz
      rcases List.mem_cons.mp hz with rfl | hz
      · exact le_of_lt (lt_of_lt_of_le hlt h1)
      · exact h2 z hz
    · rename_i hge
      obtain ⟨h1, h2⟩ := ih x
      refine ⟨h1, ?_⟩
      intro z hz
      rcases List.mem_cons.mp hz with rfl | hz
      · exact le_trans (Nat.le_of_not_lt hge) h1
      · exact h2 z hz

lemma exchangeSortAux_perm (n : Nat) (l : List BackupObj) (h : l.length ≤ n) :
    List.Perm (exchangeSortAux n l) l := by
  induction n generalizing l with
  | zero =>
    have : l = [] := List.eq_nil_of_length_eq_zero (Nat.le_zero.mp h)
    subst this; rfl
  | succ n ih =>
    cases l with
    | nil => rfl
    | cons x xs =>
      have hlen : (sortPass x xs).2.length ≤ n := by
        rw [sortPass_snd_length]
        exact Nat.lt_succ_iff.mp h
      exact ((ih (sortPass x xs).2 hlen).cons (sortPass x xs).1).trans (sortPass_perm x xs)

lemma exchangeSort_perm (l : List BackupObj) : List.Perm (exchangeSort l) l :=
  exchangeSortAux_perm l.length l le_rfl

lemma exchangeSortAux_sorted (n : Nat) (l : List BackupObj) (h : l.length ≤ n) :
    List.Pairwise (fun a b => b.lastModified ≤ a.lastModified) (exchangeSortAux n l) := by
  induction n generalizing l with
  | zero =>
    have : l = [] := List.eq_nil_of_length_eq_zero (Nat.le_zero.mp h)
    subst this; exact List.Pairwise.nil
  | succ n ih =>
    cases l with
    | nil => exact List.Pairwise.nil
    | cons x xs =>
      have hlen : (sortPass x xs).2.length ≤ n := by
        rw [sortPass_snd_length]
        exact Nat.lt_succ_iff.mp h
      refine List.Pairwise.cons ?_ (ih (sortPass x xs).2 hlen)
      intro b hb
      have hb' : b ∈ (sortPass x xs).2 :=
        ((exchangeSortAux_perm n (sortPass x xs).2 hlen).mem_iff).mp hb
      exact (sortPass_max x xs).2 b hb'

lemma exchangeSort_sorted (l : List BackupObj) :
    List.Pairwise (fun a b => b.lastModified ≤ a.lastModified) (exchangeSort l) :=
  exchangeSortAux_sorted l.length l le_rfl

lemma maxMatchTime_cons (o : BackupObj) (l : List BackupObj) :
    maxMatchTime (o :: l)
      = if matchesLatest o = true then max o.lastModified (maxMatchTime l)
        else maxMatchTime l := by
  by_cases h : matchesLatest o = true <;> simp [maxMatchTime, List.filter_cons, h]

lemma mem_le_maxMatchTime (o : BackupObj) (l : List BackupObj)
    (ho : o ∈ l) (hm : matchesLatest o = true) :
    o.lastModified ≤ maxMatchTime l := by
  induction l with
  | nil => exact absurd ho (List.not_mem_nil o)
  | cons y ys ih =>
    rcases List.mem_cons.mp ho with rfl | ho'
    · rw [maxMatchTime_cons, if_pos hm]
      exact Nat.le_max_left _ _
    · rw [maxMatchTime_cons]
      split
      · exact le_trans (ih ho') (Nat.le_max_right _ _)
      · exact ih ho'

lemma latestLoop_post (l : List BackupObj) (lb : Option BackupObj) (lt : Nat) :
    (latestLoop l (lb, lt)).2 = max lt (maxMatchTime l)
    ∧ (latestLoop l (lb, lt) = (lb, lt)
        ∨ ∃ o ∈ l, matchesLatest o = true
            ∧ latestLoop l (lb, lt) = (some o, o.lastModified)) := by
  induction l generalizing lb lt with
  | nil => simp [latestLoop, maxMatchTime]
  | cons o rest ih =>
    simp only [latestLoop]
    split
    · rename_i hcond
      obtain ⟨hm, hlt⟩ := hcond
      obtain ⟨ih2, ihd⟩ := ih (some o) o.lastModified
      constructor
      · rw [ih2, maxMatchTime_cons, if_pos hm]
        omega
      · rcases ihd with heq | ⟨p, hp, hpm, heq⟩
        · exact Or.inr ⟨o, List.mem_cons_self o rest, hm, heq⟩
        · exact Or.inr ⟨p, List.mem_cons_of_mem o hp, hpm, heq⟩
    · rename_i hcond
      obtain ⟨ih2, ihd⟩ := ih lb lt
      constructor
      · rw [ih2, maxMatchTime_cons]
        by_cases hm : matchesLatest o = true
        · rw [if_pos hm]
          have hle : o.lastModified ≤ lt := by
            by_contra hgt
            exact hcond ⟨hm, Nat.lt_of_not_le hgt⟩
          omega
        · rw [if_neg hm]
      · rcases ihd with heq | ⟨p, hp, hpm, heq⟩
        · exact Or.inl heq
        · exact Or.inr ⟨p, List.mem_cons_of_mem o hp, hpm, heq⟩

lemma strContains_append_left (pre suf sub : String)
    (h : strContains pre sub = true) : strContains (pre ++ suf) sub = true := by
  unfold strContains at h ⊢
  obtain ⟨u, v, huv⟩ := (goContains_iff pre.data sub.data).mp h
  refine (goContains_iff _ _).mpr ⟨u, v ++ suf.data, ?_⟩
  rw [String.data_append, huv]
  simp [List.append_assoc]

lemma dumpCmdMsg_split (e fh co : String) :
    ∃ rest, dumpCmdMsg e fh co = "backup creation failed (exit code 3): " ++ rest := by
  simp only [dumpCmdMsg]
  split
  · split
    · exact ⟨e ++ ("\npg_dump output: " ++ (fh ++ ("\nCommand output: " ++ co))),
        by simp only [String.append_assoc]⟩
    · exact ⟨e ++ ("\nCommand output: " ++ co), by simp only [String.append_assoc]⟩
  · split
    · exact ⟨e ++ ("\npg_dump output: " ++ fh), by simp only [String.append_assoc]⟩
    · exact ⟨e, rfl⟩

lemma connectMsg_code2 (e : String) :
    strContains (connectMsg e) "exit code 2" = true :=
  strContains_append_left "SSH connection failed (exit code 2): " e _ (by decide)

lemma transferMsg_code4 (e : String) :
    strContains (transferMsg e) "exit code 4" = true :=
  strContains_append_left "transfer failed (exit code 4): " e _ (by decide)

lemma uploadMsg_code5 (e : String) :
    strContains (uploadMsg e) "exit code 5" = true :=
  strContains_append_left "S3 upload failed (exit code 5): " e _ (by decide)

lemma dumpMsg_code3 (d : DumpOutcome) (m : String) (h : dumpMsg d = some m) :
    strContains m "exit code 3" = true := by
  cases d with
  | ok => exact absurd h (by simp [dumpMsg])
  | cmdFailed e fh co =>
    obtain ⟨rest, hrest⟩ := dumpCmdMsg_split e fh co
    have hm : m = dumpCmdMsg e fh co := by
      simpa [dumpMsg] using h.symm
    rw [hm, hrest]
    exact strContains_append_left _ rest _ (by decide)
  | statFailed e =>
    have hm : m = dumpStatMsg e := by
      simpa [dumpMsg] using h.symm
    rw [hm]
    exact strContains_append_left "failed to verify backup file (exit code 3): " e _
      (by decide)
  | emptyFile =>
    have hm : m = dumpEmptyMsg := by
      simpa [dumpMsg] using h.symm
    rw [hm]
    decide

/-- C2 (counterexample): when the upload stage fails, neither the local
temp-file removal nor the retention step of the cleanup stage executes —
`Run` returns immediately after the failure (only the deferred SSH close
runs), leaving the local temporary file behind. -/
theorem c2_upload_failure_counterexample :
    ((backupRun ⟨none, DumpOutcome.ok, none, some "boom", none⟩).2).isSome = true
    ∧ BStage.removeLocal ∉ (backupRun ⟨none, DumpOutcome.ok, none, some "boom", none⟩).1
    ∧ BStage.retention ∉ (backupRun ⟨none, DumpOutcome.ok, none, some "boom", none⟩).1 := by
  decide

/-- C2 (amended): if a stage of connect → dump → transfer → upload fails, no
later pipeline stage executes, and the deferred SSH-session close still
executes (as the last event) before the run returns; the cleanup stage
(local temp-file removal plus retention) runs exactly when all four stages
succeed — on a transfer failure the partial local file is removed inside the
transfer stage itself, and on a connect, dump, or upload failure no local
removal happens. -/
theorem c2_fail_fast (env : BackupEnv) :
    (env.connectErr.isSome = true →
        BStage.dump ∉ (backupRun env).1 ∧ BStage.transfer ∉ (backupRun env).1
          ∧ BStage.upload ∉ (backupRun env).1
          ∧ BStage.removeLocal ∉ (backupRun env).1
          ∧ BStage.retention ∉ (backupRun env).1)
    ∧ (env.connectErr = none → env.dump ≠ DumpOutcome.ok →
        BStage.transfer ∉ (backupRun env).1 ∧ BStage.upload ∉ (backupRun env).1
          ∧ BStage.removeLocal ∉ (backupRun env).1
          ∧ BStage.retention ∉ (backupRun env).1)
    ∧ (env.connectErr = none → env.dump = DumpOutcome.ok →
        env.transferErr.isSome = true →
        BStage.upload ∉ (backupRun env).1 ∧ BStage.retention ∉ (backupRun env).1)
    ∧ (env.connectErr = none → env.dump = DumpOutcome.ok → env.transferErr = none →
        env.uploadErr.isSome = true →
        BStage.removeLocal ∉ (backupRun env).1
          ∧ BStage.retention ∉ (backupRun env).1)
    ∧ ((backupRun env).1).getLast? = some BStage.sshClose
    ∧ (BStage.retention ∈ (backupRun env).1 ↔
        env.connectErr = none ∧ env.dump = DumpOutcome.ok
          ∧ env.transferErr = none ∧ env.uploadErr = none) := by
  obtain ⟨ce, d, te, ue, re⟩ := env
  cases ce <;> cases d <;> cases te <;> cases ue <;>
    simp [backupRun, dumpMsg]

/-- C2 (witness for the amended theorem): a failing dump stage executes
neither transfer, upload, nor any cleanup event. -/
theorem c2_fail_fast_witness :
    BStage.transfer ∉ (backupRun ⟨none, DumpOutcome.emptyFile, none, none, none⟩).1
    ∧ BStage.upload ∉ (backupRun ⟨none, DumpOutcome.emptyFile, none, none, none⟩).1
    ∧ BStage.removeLocal ∉ (backupRun ⟨none, DumpOutcome.emptyFile, none, none, none⟩).1
    ∧ BStage.retention ∉ (backupRun ⟨none, DumpOutcome.emptyFile, none, none, none⟩).1 :=
  (c2_fail_fast ⟨none, DumpOutcome.emptyFile, none, none, none⟩).2.1 rfl (by decide)

/-- C3: the CLI backup exit codes preserve the taxonomy — 0 on success, 2
when the SSH connection stage failed, 3 when remote backup creation failed
(including an empty dump file), 4 when the transfer failed, 5 when the S3
upload failed (including a size mismatch) — provided the underlying error
texts do not themselves smuggle in an earlier stage's "(exit code N)"
marker, which `main`'s ordered `contains` scan would match first. -/
theorem c3_exit_code_taxonomy (env : BackupEnv) :
    ((backupRun env).2 = none → backupExitCode env = 0)
    ∧ (env.connectErr.isSome = true → backupExitCode env = 2)
    ∧ (env.connectErr = none → ∀ m, dumpMsg env.dump = some m →
        strContains m "exit code 2" = false → backupExitCode env = 3)
    ∧ (env.connectErr = none → env.dump = DumpOutcome.ok →
        ∀ e, env.transferErr = some e →
        strContains (transferMsg e) "exit code 2" = false →
        strContains (transferMsg e) "exit code 3" = false →
        backupExitCode env = 4)
    ∧ (env.connectErr = none → env.dump = DumpOutcome.ok → env.transferErr = none →
        ∀ e, env.uploadErr = some e →
        strContains (uploadMsg e) "exit code 2" = false →
        strContains (uploadMsg e) "exit code 3" = false →
        strContains (uploadMsg e) "exit code 4" = false →
        backupExitCode env = 5) := by
  obtain ⟨ce, d, te, ue, re⟩ := env
  refine ⟨?_, ?_, ?_, ?_, ?_⟩
  · intro h
    simp only [backupExitCode, h]
  · intro h
    cases ce with
    | none => exact absurd h (by simp)
    | some e =>
      simp only [backupExitCode, backupRun, classifyExit, connectMsg_code2 e, if_true]
  · intro hce m hdm h2
    subst hce
    simp only [backupExitCode, backupRun, hdm, classifyExit, h2,
      dumpMsg_code3 d m hdm, Bool.false_eq_true, if_false, if_true]
  · intro hce hd e hte h2 h3
    subst hce; subst hd; subst hte
    simp only [backupExitCode, backupRun, dumpMsg, classifyExit, h2, h3,
      transferMsg_code4 e, Bool.false_eq_true, if_false, if_true]
  · intro hce hd hte e hue h2 h3 h4
    subst hce; subst hd; subst hte; subst hue
    simp only [backupExitCode, backupRun, dumpMsg, classifyExit, h2, h3, h4,
      uploadMsg_code5 e, Bool.false_eq_true, if_false, if_true]

/-- C3 (witness): one concrete run per taxonomy entry, including the
empty-dump and size-mismatch variants. -/
theorem c3_exit_code_taxonomy_witness :
    backupExitCode ⟨some "refused", DumpOutcome.ok, none, none, none⟩ = 2
    ∧ backupExitCode ⟨none, DumpOutcome.emptyFile, none, none, none⟩ = 3
    ∧ backupExitCode ⟨none, DumpOutcome.ok, some "rsync died", none, none⟩ = 4
    ∧ backupExitCode
        ⟨none, DumpOutcome.ok, none, some "uploaded file size mismatch", none⟩ = 5
    ∧ backupExitCode ⟨none, DumpOutcome.ok, none, none, none⟩ = 0 := by
  refine ⟨?_, ?_, ?_, ?_, ?_⟩
  · exact (c3_exit_code_taxonomy _).2.1 rfl
  · exact (c3_exit_code_taxonomy _).2.2.1 rfl dumpEmptyMsg rfl (by decide)
  · exact (c3_exit_code_taxonomy _).2.2.2.1 rfl rfl "rsync died" rfl
      (by decide) (by decide)
  · exact (c3_exit_code_taxonomy _).2.2.2.2 rfl rfl rfl "uploaded file size mismatch"
      rfl (by decide) (by decide) (by decide)
  · exact (c3_exit_code_taxonomy _).1 rfl

/-- C5 (counterexample): in SSH mode, with the first `pg_restore` failing on
"unsupported version (1.16)" and an archive that fails the PGDMP magic
check, no install is attempted and there is no retry — but the run fails
with the invalid-format error, not a version-mismatch error. -/
theorem c5_invalid_format_counterexample :
    (performRestoreExec
        ⟨true, false, false, true, some "1.16", false, false, false, false, false⟩).result
      = Except.error RErr.invalidFormat
    ∧ (performRestoreExec
        ⟨true, false, false, true, some "1.16", false, false, false, false, false⟩).installs
      = 0
    ∧ (performRestoreExec
        ⟨true, false, false, true, some "1.16", false, false, false, false, false⟩).restoreCalls
      = 1 :=
  ⟨rfl, rfl, rfl⟩

/-- C5 (amended): whenever the first `pg_restore` fails with an
"unsupported version" error and auto-install is disabled or the restore
runs in SSH mode, no package installation is attempted, `pg_restore` is not
retried, and the run fails — with a version-mismatch error, except when the
extracted format version is 1.16 and the archive fails the PGDMP magic
check, where it fails with an invalid-format error.  In every case the
recovery performs at most one install attempt and `pg_restore` runs at most
twice per restore invocation. -/
theorem c5_version_mismatch_recovery (env : RestoreEnv) :
    (env.firstRunOk = false → env.unsupported = true →
      (env.autoInstall = false ∨ env.sshMode = true) →
      (performRestoreExec env).installs = 0
      ∧ (performRestoreExec env).restoreCalls = 1
      ∧ ((performRestoreExec env).result = Except.error RErr.versionMismatch
          ∨ ((performRestoreExec env).result = Except.error RErr.invalidFormat
              ∧ env.extractedVersion = some "1.16" ∧ env.magicPgdmp = false)))
    ∧ (performRestoreExec env).restoreCalls ≤ 2
    ∧ (performRestoreExec env).installs ≤ 1 := by
  obtain ⟨ssh, ai, fo, us, ev, wo, mp, io, n17, ro⟩ := env
  cases ev with
  | none =>
    simp only [performRestoreExec]
    split_ifs <;> simp_all
  | some v =>
    simp only [performRestoreExec]
    split_ifs <;> simp_all

/-- C5 (witness for the amended theorem): SSH mode with a 1.14-format
archive — no install, single invocation, version-mismatch error, and the
global bounds. -/
theorem c5_version_mismatch_recovery_witness :
    (performRestoreExec
        ⟨true, false, false, true, some "1.14", false, true, false, false, false⟩).installs = 0
    ∧ (performRestoreExec
        ⟨true, false, false, true, some "1.14", false, true, false, false, false⟩).restoreCalls = 1
    ∧ (performRestoreExec
        ⟨true, false, false, true, some "1.14", false, true, false, false, false⟩).restoreCalls ≤ 2
    ∧ (performRestoreExec
        ⟨true, false, false, true, some "1.14", false, true, false, false, false⟩).installs ≤ 1 := by
  have h := c5_version_mismatch_recovery
    ⟨true, false, false, true, some "1.14", false, true, false, false, false⟩
  have h1 := h.1 rfl rfl (Or.inr rfl)
  exact ⟨h1.1, h1.2.1, h.2.1, h.2.2⟩

/-- C8: job-definition translation accepts `Monthly "31 00:00"` and
`Interval "90m"` without error, rejects `Monthly "32 00:00"` at job-creation
time, and every successfully parsed monthly expression has its day of month
within `1..31`. -/
theorem c8_schedule_acceptance :
    createJobDefinition "monthly" "31 00:00" = Except.ok (JobDef.monthly 31 0 0)
    ∧ createJobDefinition "interval" "90m" = Except.ok (JobDef.interval 5400000000000)
    ∧ createJobDefinition "monthly" "32 00:00"
        = Except.error "day must be between 1 and 31"
    ∧ (∀ expr d ts, parseMonthlySchedule expr = Except.ok (d, ts) →
        1 ≤ d ∧ d ≤ 31) := by
  refine ⟨rfl, rfl, rfl, ?_⟩
  intro expr d ts h
  simp only [parseMonthlySchedule] at h
  split at h
  · exact Except.noConfusion h
  · split at h
    · exact Except.noConfusion h
    · split at h
      · exact Except.noConfusion h
      · rename_i day rest t2 hrange
        rw [Except.ok.injEq, Prod.mk.injEq] at h
        obtain ⟨rfl, -⟩ := h
        push_neg at hrange
        omega

/-- C8 (witness): the day bound instantiated on a parsed `"5 02:00"`. -/
theorem c8_schedule_acceptance_witness : 1 ≤ (5 : Int) ∧ (5 : Int) ≤ 31 :=
  c8_schedule_acceptance.2.2.2 "5 02:00" 5 "02:00" rfl

/-- C9 (counterexample): weekday parsing is not case-insensitive — the
all-caps spelling `"MONDAY"` is rejected even though `"Monday"`, `"monday"`
and `"mon"` are accepted. -/
theorem c9_uppercase_counterexample :
    parseWeekday "MONDAY" = Except.error ("invalid weekday: " ++ "MONDAY")
    ∧ parseWeekday "Monday" = Except.ok Weekday.monday
    ∧ parseWeekday "monday" = Except.ok Weekday.monday
    ∧ parseWeekday "mon" = Except.ok Weekday.monday :=
  ⟨rfl, rfl, rfl, rfl⟩

/-- C9 (amended): `parseWeekday` accepts exactly the title-case and
all-lowercase full name and the title-case and all-lowercase three-letter
abbreviation of each weekday (e.g. `"Monday"`, `"monday"`, `"Mon"`,
`"mon"`), returning that weekday; every other string — including other
casings such as `"MONDAY"` — is rejected. -/
theorem c9_weekday_spellings_exact (s : String) (d : Weekday) :
    parseWeekday s = Except.ok d ↔ s ∈ weekdaySpellings d := by
  constructor
  · intro h
    simp only [parseWeekday] at h
    split_ifs at h with h1 h2 h3 h4 h5 h6 h7
    all_goals
      first
      | exact Except.noConfusion h
      | · rw [Except.ok.injEq] at h
          subst h
          simp only [weekdaySpellings, List.mem_cons, List.not_mem_nil, or_false]
          tauto
  · intro h
    cases d <;>
      simp only [weekdaySpellings, List.mem_cons, List.not_mem_nil, or_false] at h <;>
      rcases h with rfl | rfl | rfl | rfl <;> rfl

/-- C7 (spec-modelled): in the singleton job model, at most one run of a job
is in flight after any event sequence, and a trigger firing while a run is
in flight changes nothing but the next occurrence, which moves to the
following one — nothing is queued and no second run starts. -/
theorem c7_singleton_no_overlap (events : List JobEvent) (st : JobState)
    (hbusy : st.inFlight ≠ []) :
    (jobRun events).inFlight.length ≤ 1
    ∧ (jobStep st JobEvent.triggerFire).inFlight = st.inFlight
    ∧ (jobStep st JobEvent.triggerFire).nextOcc = st.nextOcc + 1 := by
  refine ⟨?_, ?_, ?_⟩
  · have hstep : ∀ (t : JobState) (e : JobEvent),
        t.inFlight.length ≤ 1 → (jobStep t e).inFlight.length ≤ 1 := by
      intro t e ht
      cases e with
      | triggerFire =>
        simp only [jobStep]
        split
        · simp
        · exact ht
      | runComplete rid =>
        simp only [jobStep]
        exact le_trans (List.length_erase_le rid t.inFlight) ht
    have hfold : ∀ (evs : List JobEvent) (t : JobState),
        t.inFlight.length ≤ 1 → (evs.foldl jobStep t).inFlight.length ≤ 1 := by
      intro evs
      induction evs with
      | nil => intro t ht; exact ht
      | cons e rest ih =>
        intro t ht
        exact ih (jobStep t e) (hstep t e ht)
    exact hfold events jobInit (by simp [jobInit])
  · simp only [jobStep, if_neg hbusy]
  · simp only [jobStep, if_neg hbusy]

/-- C7 (witness): a trigger firing over a busy job with run 0 in flight. -/
theorem c7_singleton_no_overlap_witness :
    (jobRun [JobEvent.triggerFire, JobEvent.triggerFire]).inFlight.length ≤ 1
    ∧ (jobStep ⟨[0], 1, 1⟩ JobEvent.triggerFire).inFlight = ([0] : List Nat)
    ∧ (jobStep ⟨[0], 1, 1⟩ JobEvent.triggerFire).nextOcc = 1 + 1 :=
  c7_singleton_no_overlap [JobEvent.triggerFire, JobEvent.triggerFire]
    ⟨[0], 1, 1⟩ (by decide)

/-- C10: the helper `contains(s, substr)` used by the CLI exit-code
classifier returns `true` if and only if `substr` occurs as a contiguous
substring of `s`, i.e. it is extensionally equal to standard substring
containment (`strings.Contains`). -/
theorem c10_contains_equiv_substring (s sub : List Char) :
    goContains s sub = true ↔ isSubstring sub s :=
  goContains_iff s sub

/-- C1 (counterexample): on the listing
`[backup-b1 (t=1), backup-b2 (t=1), backup-a (t=2)]` with retention `2`,
`CleanupOldBackups` deletes `backup-b1` while the spec's stable
insertion-order tie-break would delete `backup-b2`: the source's exchange
sort reorders equal timestamps, so ties are not broken by insertion order. -/
theorem c1_tiebreak_counterexample :
    cleanupDeleted
        [⟨"backup-b1.dump", 1⟩, ⟨"backup-b2.dump", 1⟩, ⟨"backup-a.dump", 2⟩] 2
      = [⟨"backup-b1.dump", 1⟩]
    ∧ specStableDeleted
        [⟨"backup-b1.dump", 1⟩, ⟨"backup-b2.dump", 1⟩, ⟨"backup-a.dump", 2⟩] 2
      = [⟨"backup-b2.dump", 1⟩]
    ∧ cleanupDeleted
        [⟨"backup-b1.dump", 1⟩, ⟨"backup-b2.dump", 1⟩, ⟨"backup-a.dump", 2⟩] 2
      ≠ specStableDeleted
        [⟨"backup-b1.dump", 1⟩, ⟨"backup-b2.dump", 1⟩, ⟨"backup-a.dump", 2⟩] 2 := by
  decide

/-- C1 (amended): for every listing of backup objects (each key matching the
backup naming pattern) and every retention count `N`, `CleanupOldBackups`
deletes exactly `max(0, M-N)` objects, every deleted object is at least as
old (by last-modified) as every kept object, and kept plus deleted is a
permutation of the listing; ties between identical timestamps may be broken
in either direction (the sort is not stable). -/
theorem c1_retention_deletes_oldest (objs : List BackupObj) (n : Nat)
    (hall : ∀ o ∈ objs, matchesCleanup o = true) :
    (cleanupDeleted objs n).length = objs.length - n
    ∧ (∀ d ∈ cleanupDeleted objs n, ∀ k ∈ cleanupKept objs n,
        d.lastModified ≤ k.lastModified)
    ∧ List.Perm (cleanupKept objs n ++ cleanupDeleted objs n) objs := by
  have hfil : objs.filter matchesCleanup = objs := List.filter_eq_self.mpr hall
  have hperm : List.Perm (exchangeSort (objs.filter matchesCleanup)) objs := by
    rw [hfil]; exact exchangeSort_perm objs
  have hlen : (exchangeSort (objs.filter matchesCleanup)).length = objs.length :=
    hperm.length_eq
  have hsorted := exchangeSort_sorted (objs.filter matchesCleanup)
  set sorted := exchangeSort (objs.filter matchesCleanup) with hsdef
  have hsplit : sorted.take n ++ sorted.drop n = sorted := List.take_append_drop n sorted
  have hpw : ∀ a ∈ sorted.take n, ∀ b ∈ sorted.drop n,
      b.lastModified ≤ a.lastModified := by
    have := (List.pairwise_append.mp (hsplit.symm ▸ hsorted)).2.2
    exact this
  by_cases hcase : sorted.length ≤ n
  · have hdel : cleanupDeleted objs n = [] := by
      simp only [cleanupDeleted, ← hsdef, if_pos hcase]
    have hkept : cleanupKept objs n = sorted := by
      simp only [cleanupKept, ← hsdef]
      exact List.take_of_length_le hcase
    refine ⟨?_, ?_, ?_⟩
    · rw [hdel]; simp; omega
    · intro d hd; rw [hdel] at hd; exact absurd hd (List.not_mem_nil d)
    · rw [hdel, hkept, List.append_nil]; exact hperm
  · have hdel : cleanupDeleted objs n = sorted.drop n := by
      simp only [cleanupDeleted, ← hsdef, if_neg hcase]
    refine ⟨?_, ?_, ?_⟩
    · rw [hdel, List.length_drop, hlen]
    · intro d hd k hk
      rw [hdel] at hd
      exact hpw k hk d hd
    · rw [hdel]
      simpa only [cleanupKept, ← hsdef, hsplit] using hperm

/-- C1 (witness for the amended theorem): a two-object listing with
retention 1 deletes exactly the older object. -/
theorem c1_retention_deletes_oldest_witness :
    (cleanupDeleted [⟨"backup-x.dump", 5⟩, ⟨"backup-y.dump", 3⟩] 1).length
      = (2 : Nat) - 1
    ∧ (∀ d ∈ cleanupDeleted [⟨"backup-x.dump", 5⟩, ⟨"backup-y.dump", 3⟩] 1,
        ∀ k ∈ cleanupKept [⟨"backup-x.dump", 5⟩, ⟨"backup-y.dump", 3⟩] 1,
          d.lastModified ≤ k.lastModified)
    ∧ List.Perm
        (cleanupKept [⟨"backup-x.dump", 5⟩, ⟨"backup-y.dump", 3⟩] 1
          ++ cleanupDeleted [⟨"backup-x.dump", 5⟩, ⟨"backup-y.dump", 3⟩] 1)
        [⟨"backup-x.dump", 5⟩, ⟨"backup-y.dump", 3⟩] :=
  c1_retention_deletes_oldest
    [⟨"backup-x.dump", 5⟩, ⟨"backup-y.dump", 3⟩] 1 (by decide)

/-- C6 (counterexample): with two matching objects and retention count
`N = 1 ≤ M = 2`, the retention cleanup is not a no-op — it deletes the older
object.  The claim inverted the spec's no-op condition: the source is a
no-op when `M ≤ N`, not when `N ≤ M`. -/
theorem c6_counterexample :
    (1 : Nat)
        ≤ (([⟨"backup-x.dump", 5⟩, ⟨"backup-y.dump", 3⟩] : List BackupObj)).length
    ∧ cleanupDeleted [⟨"backup-x.dump", 5⟩, ⟨"backup-y.dump", 3⟩] 1
        = [⟨"backup-y.dump", 3⟩] := by
  decide

/-- C6 (amended): for every listing of matching backup objects of size `M`
and retention count `N` with `M ≤ N`, the retention cleanup deletes nothing. -/
theorem c6_noop_when_retention_covers (objs : List BackupObj) (n : Nat)
    (hall : ∀ o ∈ objs, matchesCleanup o = true) (h : objs.length ≤ n) :
    cleanupDeleted objs n = [] := by
  have hfil : objs.filter matchesCleanup = objs := List.filter_eq_self.mpr hall
  have hlen : (exchangeSort (objs.filter matchesCleanup)).length = objs.length := by
    rw [hfil]; exact (exchangeSort_perm objs).length_eq
  simp only [cleanupDeleted]
  rw [if_pos (by rw [hlen]; exact h)]

/-- C6 (witness): two matching objects, retention 2 — nothing deleted. -/
theorem c6_noop_when_retention_covers_witness :
    cleanupDeleted [⟨"backup-x.dump", 5⟩, ⟨"backup-y.dump", 3⟩] 2 = [] :=
  c6_noop_when_retention_covers
    [⟨"backup-x.dump", 5⟩, ⟨"backup-y.dump", 3⟩] 2 (by decide) (by decide)

/-- C4: for a restore invocation with no explicit backup key (over listings
whose last-modified instants are after Go's zero time, as every real S3
timestamp is), the selection picks an object matching the backup naming
convention whose last-modified time is greatest among the matching objects;
for an empty or no-match listing the selection fails with the
no-backups-found error, aborting the restore. -/
theorem c4_latest_backup_selection (objs : List BackupObj)
    (hpos : ∀ o ∈ objs, 0 < o.lastModified) :
    ((∃ o ∈ objs, matchesLatest o = true) →
      ∃ o ∈ objs, matchesLatest o = true
        ∧ restoreSelectKey "" objs = Except.ok o.key
        ∧ ∀ p ∈ objs, matchesLatest p = true →
            p.lastModified ≤ o.lastModified)
    ∧ ((¬ ∃ o ∈ objs, matchesLatest o = true) →
      restoreSelectKey "" objs
        = Except.error ("failed to get latest backup: " ++ "no backups found in S3")) := by
  obtain ⟨h2, hd⟩ := latestLoop_post objs none 0
  constructor
  · rintro ⟨o, ho, hom⟩
    rcases hd with heq | ⟨b, hb, hbm, heq⟩
    · exfalso
      rw [heq] at h2
      have hmm : maxMatchTime objs = 0 := by
        simpa using h2.symm
      have h3 := mem_le_maxMatchTime o objs ho hom
      have h4 := hpos o ho
      omega
    · refine ⟨b, hb, hbm, ?_, ?_⟩
      · simp [restoreSelectKey, getLatestBackup, heq]
      · intro p hp hpm
        rw [heq] at h2
        have h3 := mem_le_maxMatchTime p objs hp hpm
        simp only at h2
        omega
  · intro hno
    rcases hd with heq | ⟨b, hb, hbm, heq⟩
    · simp [restoreSelectKey, getLatestBackup, heq]
    · exact absurd ⟨b, hb, hbm⟩ hno

/-- C4 (witness): a listing with one matching and one non-matching object
selects the matching one. -/
theorem c4_latest_backup_selection_witness :
    ((∃ o ∈ ([⟨"backup_a.dump", 7⟩, ⟨"other.txt", 4⟩] : List BackupObj),
        matchesLatest o = true) →
      ∃ o ∈ ([⟨"backup_a.dump", 7⟩, ⟨"other.txt", 4⟩] : List BackupObj),
        matchesLatest o = true
        ∧ restoreSelectKey "" [⟨"backup_a.dump", 7⟩, ⟨"other.txt", 4⟩]
            = Except.ok o.key
        ∧ ∀ p ∈ ([⟨"backup_a.dump", 7⟩, ⟨"other.txt", 4⟩] : List BackupObj),
            matchesLatest p = true → p.lastModified ≤ o.lastModified)
    ∧ ((¬ ∃ o ∈ ([⟨"backup_a.dump", 7⟩, ⟨"other.txt", 4⟩] : List BackupObj),
          matchesLatest o = true) →
      restoreSelectKey "" [⟨"backup_a.dump", 7⟩, ⟨"other.txt", 4⟩]
        = Except.error ("failed to get latest backup: " ++ "no backups found in S3")) :=
  c4_latest_backup_selection [⟨"backup_a.dump", 7⟩, ⟨"other.txt", 4⟩] (by decide)

end PgBackup
